import Mathlib

/-!
Verification of the wasm-audio-combiner core (`src/lib.rs`).

Shallow embedding conventions:
* Byte vectors (`Vec<u8>`) are `List Nat`.
* `f32` sample values are modelled as exact rationals `ℚ`; the Rust
  float-to-`i16` `as` cast (saturating, truncating toward zero) is modelled
  exactly by `f32_as_i16`.
* The symphonia decoding capability (probe / default_track / decode) is an
  external collaborator of the core; it is modelled as an oracle
  `DecodeOracle` mapping a clip to either an error string or the flat
  interleaved `f32` sample list that the repeated
  `SampleBuffer::copy_interleaved_ref` calls in `combine` accumulate.
  The core itself performs no channel handling, so the sample list of the oracle
  carries whatever channel interleaving the decoder produced.
* `Date.now()` is modelled by a finite trace of successive clock readings
  (`List ℚ`); the busy-wait loop in `combine` consumes the trace and exits
  when a reading passes the deadline or the trace is exhausted.
-/

namespace WasmAudioCombiner

/-- Type `SingleAudioFileType` from `src/lib.rs` (lines 21-26): the closed set of
container-format tags.  Note it has exactly two variants, `Mpeg` and `Ogg`;
there is no uncompressed (WAV) variant. -/
inductive SingleAudioFileType where
  | Mpeg
  | Ogg
deriving DecidableEq, Repr

/-- Structure `SingleAudioFile` from `src/lib.rs` (lines 28-33): raw encoded bytes plus
a format tag. -/
structure SingleAudioFile where
  bytes : List Nat
  type : SingleAudioFileType
deriving DecidableEq, Repr

/-- Constructor `SingleAudioFile::new` (lines 36-40). -/
def SingleAudioFile.new (bytes : List Nat) (type : SingleAudioFileType) :
    SingleAudioFile :=
  { bytes := bytes, type := type }

/-- Structure `AudioCombiner` (lines 17-20): the combiner stores the raw input files,
nothing else. -/
structure AudioCombiner where
  files : List SingleAudioFile
deriving DecidableEq, Repr

/-- Constructor `AudioCombiner::new` (lines 77-79): stores the clip list verbatim.  It is
total and performs no decoding whatsoever. -/
def AudioCombiner.new (files : List SingleAudioFile) : AudioCombiner :=
  { files := files }

/-- The hint-extension mapping from `combine` (lines 103-110): the `Mpeg` tag
drives an "mp3" probe hint, the `Ogg` tag an "ogg" probe hint.  Both are
compressed container formats. -/
def hint_extension : SingleAudioFileType → String
  | SingleAudioFileType.Mpeg => "mp3"
  | SingleAudioFileType.Ogg => "ogg"

/-- The external decoding capability: given a clip (bytes plus hint tag) it
yields either a decode error or the flat interleaved float sample list the
decoder produces for the whole stream. -/
abbrev DecodeOracle := SingleAudioFile → Except String (List ℚ)

/-- Encoding `u16::to_le_bytes`. -/
def u16le (x : Nat) : List Nat :=
  [x % 256, x / 256 % 256]

/-- Encoding `u32::to_le_bytes`.  Extracting each byte modulo 256 makes this
automatically periodic in `x` with period `2 ^ 32`, matching u32 wrap-around
semantics. -/
def u32le (x : Nat) : List Nat :=
  [x % 256, x / 256 % 256, x / 65536 % 256, x / 16777216 % 256]

/-- Truncation toward zero of a rational, the rounding used by the Rust
float-to-integer `as` casts. -/
def ratTrunc (q : ℚ) : Int :=
  if 0 ≤ q then ⌊q⌋ else -⌊-q⌋

/-- The Rust `as i16` cast from a float value (modelled exactly on ℚ):
truncate toward zero and saturate at the i16 bounds. -/
def f32_as_i16 (q : ℚ) : Int :=
  max (-32768) (min 32767 (ratTrunc q))

/-- The per-sample transform of `create_wav_container` (lines 66-69):
`sample.clamp(-1.0, 1.0)`, multiply by `i16::MAX = 32767`, cast `as i16`. -/
def quantize_sample (sample : ℚ) : Int :=
  f32_as_i16 (max (-1) (min 1 sample) * 32767)

/-- Encoding `i16::to_le_bytes` (twos-complement, little-endian).  `Int.emod` keeps
the representative in `[0, 65536)`. -/
def int16le (s : Int) : List Nat :=
  [(s % 65536).toNat % 256, (s % 65536).toNat / 256]

/-- The two bytes emitted for one sample by `create_wav_container`
(lines 66-71). -/
def encode_sample (sample : ℚ) : List Nat :=
  int16le (quantize_sample sample)

/-- Function `create_wav_container` (lines 43-73): the fixed 44-byte RIFF/WAVE header
followed by the 16-bit little-endian encoding of each sample. -/
def create_wav_container (samples : List ℚ) (sample_rate : Nat) : List Nat :=
  let data_size := samples.length * 2
  [82, 73, 70, 70]
    ++ u32le (36 + data_size)
    ++ [87, 65, 86, 69]
    ++ [102, 109, 116, 32]
    ++ u32le 16
    ++ u16le 1
    ++ u16le 2
    ++ u32le sample_rate
    ++ u32le (sample_rate * 4)
    ++ u16le 4
    ++ u16le 16
    ++ [100, 97, 116, 97]
    ++ u32le data_size
    ++ (samples.map encode_sample).flatten

/-- Little-endian decoding of the two bytes produced by `int16le`, back to a
signed 16-bit value. -/
def decode_int16le (b : List Nat) : Int :=
  let u := b.getD 0 0 + 256 * b.getD 1 0
  if u < 32768 then (u : Int) else (u : Int) - 65536

/-- The busy-wait loop of `combine` (lines 81-85):
`while now() < captured_now + 3000.0 { i += 1 }`.  The argument list is the
trace of successive `Date.now()` readings; the result is the number of loop
iterations performed. -/
def spin_loop (captured_now : ℚ) : List ℚ → Nat
  | [] => 0
  | t :: ts => if t < captured_now + 3000 then spin_loop captured_now ts + 1 else 0

/-- The inner sample loop of `combine` (lines 145-154): each processed sample
is pushed when `track_index` has reached the length of the master buffer and
accumulated into the existing slot otherwise. -/
def mix_loop (factor : ℚ) : List ℚ → Nat → List ℚ → List ℚ
  | master_buffer, _, [] => master_buffer
  | master_buffer, track_index, sample :: rest =>
    let processed_sample := sample * factor
    let master2 :=
      if master_buffer.length ≤ track_index then master_buffer ++ [processed_sample]
      else master_buffer.set track_index (master_buffer.getD track_index 0 + processed_sample)
    mix_loop factor master2 (track_index + 1) rest

/-- The per-file loop of `combine` (lines 89-156): for the file at index `i`,
first look up `volumes[i]` (an absent entry is the `Missing volume` error),
then run the external decode (any decode failure aborts with its error
string), then mix the decoded samples into the master buffer starting at
track index 0. -/
def combine_loop (decode : DecodeOracle) (volumes : List Nat) :
    List SingleAudioFile → Nat → List ℚ → Except String (List ℚ)
  | [], _, master_buffer => Except.ok master_buffer
  | file :: rest, i, master_buffer =>
    match volumes[i]? with
    | none => Except.error ("Missing volume for index " ++ toString i)
    | some v =>
      match decode file with
      | Except.error e => Except.error e
      | Except.ok samples =>
          combine_loop decode volumes rest (i + 1)
            (mix_loop ((v : ℚ) / 100) master_buffer 0 samples)

/-- Method `AudioCombiner::combine` (lines 80-166): spin on the clock until the
3000 ms deadline passes (the iteration count is discarded), run the per-file
decode-and-mix loop on an empty master buffer, and wrap the result in a WAV
container at 44100 Hz tagged `Ogg`. -/
def AudioCombiner.combine (self : AudioCombiner) (decode : DecodeOracle)
    (clock : List ℚ) (volumes : List Nat) : Except String SingleAudioFile :=
  let captured_now := clock.headD 0
  let _i := spin_loop captured_now clock.tail
  match combine_loop decode volumes self.files 0 [] with
  | Except.error e => Except.error e
  | Except.ok master_buffer =>
      Except.ok
        { bytes := create_wav_container master_buffer 44100
          type := SingleAudioFileType.Ogg }

/-- The Rust `Iterator::max`: `none` on an empty list. -/
def iter_max : List Nat → Option Nat
  | [] => none
  | x :: xs =>
    some
      (match iter_max xs with
       | none => x
       | some m => max x m)

/-- Method `AudioCombiner::print` (lines 168-177): takes the maximum byte length
over the stored files with `.max().unwrap()` and alerts a message.  `none`
models the `unwrap` panic on an empty iterator; `some msg` models the alert
call with its message. -/
def AudioCombiner.print (self : AudioCombiner) : Option String :=
  match iter_max (self.files.map fun x => x.bytes.length) with
  | none => none
  | some max_bytes =>
      some ("Got list with length of " ++ toString self.files.length
        ++ " and max bytes is " ++ toString max_bytes)

/-- Sequencing the decode oracle over a clip list (hypothesis-side helper for
stating facts about fully decodable clip lists). -/
def decodedTracks (decode : DecodeOracle) :
    List SingleAudioFile → Except String (List (List ℚ))
  | [] => Except.ok []
  | f :: fs =>
    match decode f, decodedTracks decode fs with
    | Except.ok t, Except.ok ts => Except.ok (t :: ts)
    | Except.error e, _ => Except.error e
    | Except.ok _, Except.error e => Except.error e

/-- Little-endian read of the 16-bit field at the head of a byte list (apply
after `List.drop offset` to read at an offset). -/
def read_u16le (w : List Nat) : Nat :=
  w.headD 0 + 256 * (w.drop 1).headD 0

/-- Little-endian read of the 32-bit field at the head of a byte list (apply
after `List.drop offset` to read at an offset). -/
def read_u32le (w : List Nat) : Nat :=
  w.headD 0 + 256 * (w.drop 1).headD 0 + 65536 * (w.drop 2).headD 0
    + 16777216 * (w.drop 3).headD 0

/-- A concrete clip whose decode will be made to fail. -/
def bad_file : SingleAudioFile :=
  { bytes := [0], type := SingleAudioFileType.Mpeg }

/-- A concrete oracle on which every decode fails (e.g. malformed data). -/
def fail_decode : DecodeOracle := fun _ => Except.error "malformed packet"

/-- A concrete oracle on which every decode succeeds with one sample. -/
def ok_decode : DecodeOracle := fun _ => Except.ok [1]

/-- A concrete clip standing for a mono source. -/
def mono_file : SingleAudioFile :=
  { bytes := [1, 2, 3], type := SingleAudioFileType.Mpeg }

/-- Oracle for `mono_file`: a single-channel stream of one decoded frame with
sample value 1/2; the interleaved copy of a mono stream yields exactly one
sample per frame, so the whole-stream sample list is `[1/2]`. -/
def mono_decode : DecodeOracle := fun _ => Except.ok [1/2]

/-- A concrete clip used as a short first track. -/
def track_a_file : SingleAudioFile :=
  { bytes := [1], type := SingleAudioFileType.Mpeg }

/-- A concrete clip used as a longer second track. -/
def track_b_file : SingleAudioFile :=
  { bytes := [2], type := SingleAudioFileType.Ogg }

/-- A concrete oracle decoding `Mpeg`-tagged clips to one sample and
`Ogg`-tagged clips to three samples. -/
def two_track_decode : DecodeOracle := fun f =>
  if f.type = SingleAudioFileType.Mpeg then Except.ok [1/2]
  else Except.ok [1/4, 1/4, 1/4]

/-! ### Helper lemmas -/

theorem getD_eq_zero_of_le {l : List ℚ} {j : Nat} (h : l.length ≤ j) :
    l.getD j 0 = 0 := by
  simp [List.getD_eq_getElem?_getD, List.getElem?_eq_none h]

theorem getD_append_single (l : List ℚ) (a : ℚ) (j : Nat) :
    (l ++ [a]).getD j 0 = if j = l.length then a else l.getD j 0 := by
  rcases Nat.lt_trichotomy j l.length with h | h | h
  · rw [if_neg (Nat.ne_of_lt h), List.getD_append _ _ _ _ h]
  · subst h
    simp [List.getD_eq_getElem?_getD, List.getElem?_append_right (le_refl _)]
  · rw [if_neg (Nat.ne_of_gt h), getD_eq_zero_of_le (le_of_lt h),
      getD_eq_zero_of_le (by simp; omega)]

theorem getD_set_eq (l : List ℚ) (ti j : Nat) (x : ℚ) (hti : ti < l.length) :
    (l.set ti x).getD j 0 = if j = ti then x else l.getD j 0 := by
  by_cases h : j = ti
  · subst h
    simp [List.getD_eq_getElem?_getD, List.getElem?_set, hti]
  · simp [List.getD_eq_getElem?_getD, List.getElem?_set, h, Ne.symm h]

theorem mix_loop_length (factor : ℚ) :
    ∀ (samples master : List ℚ) (ti : Nat), ti ≤ master.length →
      (mix_loop factor master ti samples).length = max master.length (ti + samples.length)
  | [], master, ti, h => by
    simp [mix_loop]
    omega
  | sample :: rest, master, ti, h => by
    simp only [mix_loop]
    by_cases hle : master.length ≤ ti
    · rw [if_pos hle,
        mix_loop_length factor rest _ (ti + 1) (by simp; omega)]
      simp [List.length_append]
      omega
    · rw [if_neg hle,
        mix_loop_length factor rest _ (ti + 1) (by simp [List.length_set]; omega)]
      simp [List.length_set]
      omega

theorem mix_loop_getD (factor : ℚ) :
    ∀ (samples master : List ℚ) (ti : Nat), ti ≤ master.length → ∀ j,
      (mix_loop factor master ti samples).getD j 0 =
        master.getD j 0 + (if ti ≤ j then samples.getD (j - ti) 0 * factor else 0)
  | [], master, ti, _, j => by
    simp only [mix_loop, List.getD]
    split <;> simp
  | sample :: rest, master, ti, h, j => by
    simp only [mix_loop]
    by_cases hle : master.length ≤ ti
    · have hti : ti = master.length := le_antisymm h hle
      rw [if_pos hle,
        mix_loop_getD factor rest _ (ti + 1) (by simp; omega) j,
        getD_append_single]
      rcases Nat.lt_trichotomy j ti with hj | hj | hj
      · rw [if_neg (by omega : ¬ j = master.length),
          if_neg (by omega : ¬ ti + 1 ≤ j), if_neg (by omega : ¬ ti ≤ j)]
      · subst hj
        rw [if_pos hti, if_neg (by omega : ¬ j + 1 ≤ j), if_pos (le_refl j),
          Nat.sub_self, List.getD_cons_zero,
          getD_eq_zero_of_le (le_of_eq hti.symm)]
        ring
      · rw [if_neg (by omega : ¬ j = master.length),
          if_pos (by omega : ti + 1 ≤ j), if_pos (by omega : ti ≤ j),
          (by omega : j - ti = (j - (ti + 1)) + 1), List.getD_cons_succ]
    · have hti : ti < master.length := lt_of_not_le hle
      rw [if_neg hle,
        mix_loop_getD factor rest _ (ti + 1) (by simp [List.length_set]; omega) j,
        getD_set_eq master ti j _ hti]
      rcases Nat.lt_trichotomy j ti with hj | hj | hj
      · rw [if_neg (by omega : ¬ j = ti),
          if_neg (by omega : ¬ ti + 1 ≤ j), if_neg (by omega : ¬ ti ≤ j)]
      · subst hj
        rw [if_pos rfl, if_neg (by omega : ¬ j + 1 ≤ j), if_pos (le_refl j),
          Nat.sub_self, List.getD_cons_zero]
        ring
      · rw [if_neg (by omega : ¬ j = ti),
          if_pos (by omega : ti + 1 ≤ j), if_pos (by omega : ti ≤ j),
          (by omega : j - ti = (j - (ti + 1)) + 1), List.getD_cons_succ]

theorem combine_loop_missing_volume (decode : DecodeOracle) (volumes : List Nat) :
    ∀ (files : List SingleAudioFile) (i : Nat) (master : List ℚ),
      i ≤ volumes.length → volumes.length < i + files.length →
      (∀ f ∈ files, ∃ t, decode f = Except.ok t) →
      combine_loop decode volumes files i master =
        Except.error ("Missing volume for index " ++ toString volumes.length)
  | [], i, master, h1, h2, _ => by
    simp at h2
    omega
  | f :: fs, i, master, h1, h2, hdec => by
    rcases Nat.eq_or_lt_of_le h1 with he | hlt
    · have hv : volumes[i]? = none := List.getElem?_eq_none (by omega)
      simp only [combine_loop, hv]
      rw [he]
    · obtain ⟨v, hv⟩ : ∃ v, volumes[i]? = some v :=
        ⟨_, List.getElem?_eq_getElem hlt⟩
      obtain ⟨t, ht⟩ := hdec f (List.mem_cons_self f fs)
      simp only [combine_loop, hv, ht]
      exact combine_loop_missing_volume decode volumes fs (i + 1) _
        (by omega) (by simp at h2 ⊢; omega)
        (fun g hg => hdec g (List.mem_cons_of_mem f hg))

theorem combine_loop_length (decode : DecodeOracle) (volumes : List Nat) :
    ∀ (files : List SingleAudioFile) (ts : List (List ℚ)) (i : Nat) (master : List ℚ),
      decodedTracks decode files = Except.ok ts →
      i + files.length ≤ volumes.length →
      ∃ m, combine_loop decode volumes files i master = Except.ok m ∧
        m.length = ts.foldl (fun acc t => max acc t.length) master.length
  | [], ts, i, master, hts, _ => by
    simp only [decodedTracks, Except.ok.injEq] at hts
    subst hts
    exact ⟨master, by simp [combine_loop], by simp⟩
  | f :: fs, ts, i, master, hts, hle => by
    cases hdf : decode f with
    | error e =>
      rw [decodedTracks, hdf] at hts
      cases hts
    | ok t =>
      cases hdfs : decodedTracks decode fs with
      | error e =>
        rw [decodedTracks, hdf, hdfs] at hts
        cases hts
      | ok ts2 =>
        rw [decodedTracks, hdf, hdfs] at hts
        simp only [Except.ok.injEq] at hts
        subst hts
        have hlt : i < volumes.length := by simp at hle; omega
        obtain ⟨v, hv⟩ : ∃ v, volumes[i]? = some v :=
          ⟨_, List.getElem?_eq_getElem hlt⟩
        obtain ⟨m, hm, hlen⟩ :=
          combine_loop_length decode volumes fs ts2 (i + 1)
            (mix_loop ((v : ℚ) / 100) master 0 t) hdfs (by simp at hle ⊢; omega)
        refine ⟨m, ?_, ?_⟩
        · simp only [combine_loop, hv, hdf]
          exact hm
        · rw [hlen, mix_loop_length ((v : ℚ) / 100) t master 0 (Nat.zero_le _)]
          simp

theorem combine_loop_append_volumes (decode : DecodeOracle) (volumes extra : List Nat) :
    ∀ (files : List SingleAudioFile) (i : Nat) (master : List ℚ),
      i + files.length ≤ volumes.length →
      combine_loop decode (volumes ++ extra) files i master =
        combine_loop decode volumes files i master
  | [], i, master, _ => by simp [combine_loop]
  | f :: fs, i, master, h => by
    have hlt : i < volumes.length := by simp at h; omega
    have hv : (volumes ++ extra)[i]? = volumes[i]? := by
      rw [List.getElem?_append, if_pos hlt]
    simp only [combine_loop, hv]
    cases hvi : volumes[i]? with
    | none => rfl
    | some v =>
      cases hdf : decode f with
      | error e => rfl
      | ok samples =>
        exact combine_loop_append_volumes decode volumes extra fs (i + 1) _
          (by simp at h ⊢; omega)

theorem combine_loop_fail_fast (decode : DecodeOracle) (volumes : List Nat)
    (bad : SingleAudioFile) (rest : List SingleAudioFile) (e : String)
    (hbad : decode bad = Except.error e) :
    ∀ (pre : List SingleAudioFile) (i : Nat) (master : List ℚ),
      (∀ g ∈ pre, ∃ t, decode g = Except.ok t) →
      i + pre.length < volumes.length →
      combine_loop decode volumes (pre ++ bad :: rest) i master = Except.error e
  | [], i, master, _, hlen => by
    have hlt : i < volumes.length := by simp at hlen; omega
    obtain ⟨v, hv⟩ : ∃ v, volumes[i]? = some v :=
      ⟨_, List.getElem?_eq_getElem hlt⟩
    simp only [List.nil_append, combine_loop, hv, hbad]
  | g :: pre2, i, master, hdec, hlen => by
    have hlt : i < volumes.length := by simp at hlen; omega
    obtain ⟨v, hv⟩ : ∃ v, volumes[i]? = some v :=
      ⟨_, List.getElem?_eq_getElem hlt⟩
    obtain ⟨t, ht⟩ := hdec g (List.mem_cons_self g pre2)
    simp only [List.cons_append, combine_loop, hv, ht]
    exact combine_loop_fail_fast decode volumes bad rest e hbad pre2 (i + 1) _
      (fun x hx => hdec x (List.mem_cons_of_mem g hx)) (by simp at hlen ⊢; omega)

theorem create_wav_container_length (samples : List ℚ) (rate : Nat) :
    (create_wav_container samples rate).length = 44 + 2 * samples.length := by
  have h2 : ∀ s : ℚ, (encode_sample s).length = 2 := fun s => by
    simp [encode_sample, int16le]
  have hfl : ((samples.map encode_sample).flatten).length = 2 * samples.length := by
    induction samples with
    | nil => simp
    | cons s ss ih => simp only [List.map_cons, List.flatten_cons,
        List.length_append, ih, h2, List.length_cons]; ring
  simp [create_wav_container, u32le, u16le, List.length_append, hfl]
  omega

theorem ratTrunc_bounds (q : ℚ) (h1 : -32767 ≤ q) (h2 : q ≤ 32767) :
    -32767 ≤ ratTrunc q ∧ ratTrunc q ≤ 32767 := by
  have hfl : ⌊(32767 : ℚ)⌋ = 32767 := by norm_num
  unfold ratTrunc
  split
  · rename_i h0
    have ha : (0 : Int) ≤ ⌊q⌋ := Int.floor_nonneg.mpr h0
    have hb : ⌊q⌋ ≤ ⌊(32767 : ℚ)⌋ := Int.floor_le_floor h2
    rw [hfl] at hb
    omega
  · rename_i h0
    push_neg at h0
    have ha : (0 : Int) ≤ ⌊-q⌋ := Int.floor_nonneg.mpr (by linarith)
    have hb : ⌊-q⌋ ≤ ⌊(32767 : ℚ)⌋ := Int.floor_le_floor (by linarith)
    rw [hfl] at hb
    omega

theorem quantize_sample_eq (s : ℚ) :
    quantize_sample s = ratTrunc (max (-1) (min 1 s) * 32767) ∧
    -32767 ≤ quantize_sample s ∧ quantize_sample s ≤ 32767 := by
  have hc1 : -1 ≤ max (-1) (min 1 s) := le_max_left _ _
  have hc2 : max (-1) (min 1 s) ≤ 1 := max_le (by norm_num) (min_le_left _ _)
  have hm1 : -32767 ≤ max (-1) (min 1 s) * 32767 := by nlinarith
  have hm2 : max (-1) (min 1 s) * 32767 ≤ 32767 := by nlinarith
  obtain ⟨hb1, hb2⟩ := ratTrunc_bounds _ hm1 hm2
  have heq : quantize_sample s = ratTrunc (max (-1) (min 1 s) * 32767) := by
    unfold quantize_sample f32_as_i16
    rw [min_eq_right (by omega), max_eq_right (by omega)]
  exact ⟨heq, heq ▸ hb1, heq ▸ hb2⟩

theorem int16le_roundtrip (v : Int) (h1 : -32767 ≤ v) (h2 : v ≤ 32767) :
    decode_int16le (int16le v) = v := by
  simp only [int16le, decode_int16le, List.getD_eq_getElem?_getD, List.getElem?_cons]
  norm_num
  split <;> omega

/-! ### Claim theorems -/

/-- Claim C4, counterexample to the claim as stated: the busy-wait of
`combine` (lines 81-85), embedded as `spin_loop`, performs a positive number
of clock-polling iterations before any mixing starts — here three iterations
on a concrete clock trace whose readings stay below the 3000 ms deadline
three times.  So it is false that "no clock-spinning busy-wait ... precedes
the mixing result". -/
theorem spin_loop_iterates_counterexample :
    spin_loop 0 [1000, 2000, 2999, 3001] = 3 := by
  norm_num [spin_loop]

/-- Claim C4, amended: the result of `combine` is a pure function of the
stored tracks and the supplied gain vector — in particular it is independent
of the host clock trace, because the iteration count of the busy-wait is computed
and then discarded.  (A 3-second clock-spinning busy-wait does, however,
precede mixing; see the counterexample.) -/
theorem combine_clock_independent (self : AudioCombiner) (decode : DecodeOracle)
    (clock1 clock2 : List ℚ) (volumes : List Nat) :
    self.combine decode clock1 volumes = self.combine decode clock2 volumes := rfl

/-- Claim C5: when the gain vector is shorter than the clip list (and every
clip decodes, so that the volume lookup is the first failure encountered),
`combine` uniformly applies the rejection policy: it returns the
missing-volume error for the first uncovered index — for every shape of clip
list and gain vector — and the error is surfaced to the caller, never
downgraded. -/
theorem combine_missing_volume (decode : DecodeOracle) (clock : List ℚ)
    (files : List SingleAudioFile) (volumes : List Nat)
    (hshort : volumes.length < files.length)
    (hdec : ∀ f ∈ files, ∃ t, decode f = Except.ok t) :
    (AudioCombiner.new files).combine decode clock volumes =
      Except.error ("Missing volume for index " ++ toString volumes.length) := by
  have h := combine_loop_missing_volume decode volumes files 0 []
    (Nat.zero_le _) (by omega) hdec
  simp only [AudioCombiner.combine, AudioCombiner.new, h]

/-- Witness for C5: one clip, empty gain vector, a decoder that always
succeeds — `combine` rejects with the missing-volume error for index 0. -/
theorem combine_missing_volume_witness :
    (AudioCombiner.new [bad_file]).combine ok_decode [] [] =
      Except.error ("Missing volume for index " ++ toString ([] : List Nat).length) :=
  combine_missing_volume ok_decode [] [bad_file] [] (by decide)
    (fun _ _ => ⟨[1], rfl⟩)

/-- Claim C9: for a non-empty clip list and a gain vector at least as long as
the clip list, appending extra gain entries never changes the result of
`combine` (and hence never causes an error): only the first clip-count
entries are ever read. -/
theorem combine_extra_volumes (decode : DecodeOracle) (clock : List ℚ)
    (files : List SingleAudioFile) (volumes extra : List Nat)
    (hne : files ≠ []) (hlen : files.length ≤ volumes.length) :
    (AudioCombiner.new files).combine decode clock (volumes ++ extra) =
      (AudioCombiner.new files).combine decode clock volumes := by
  have h := combine_loop_append_volumes decode volumes extra files 0 [] (by omega)
  simp only [AudioCombiner.combine, AudioCombiner.new, h]

/-- Witness for C9 at a concrete clip, gain vector and appended extras. -/
theorem combine_extra_volumes_witness :
    (AudioCombiner.new [mono_file]).combine mono_decode [] ([100] ++ [7, 9]) =
      (AudioCombiner.new [mono_file]).combine mono_decode [] [100] :=
  combine_extra_volumes mono_decode [] [mono_file] [100] [7, 9]
    (by decide) (by decide)

/-- Claim C10: `print` on a combiner built from an empty clip list panics
(`.max().unwrap()` on an empty iterator, modelled as `none`), and on any
combiner with at least one clip it completes (the `unwrap` succeeds). -/
theorem print_empty_panics :
    AudioCombiner.print (AudioCombiner.new []) = none ∧
    ∀ c : AudioCombiner, c.files ≠ [] → (AudioCombiner.print c).isSome = true := by
  constructor
  · rfl
  · intro c hc
    cases hfiles : c.files with
    | nil => exact absurd hfiles hc
    | cons f fs => simp [AudioCombiner.print, hfiles, iter_max]

/-- Witness for C10: `print` succeeds on a one-clip combiner. -/
theorem print_nonempty_witness :
    (AudioCombiner.print (AudioCombiner.mk [bad_file])).isSome = true :=
  print_empty_panics.2 (AudioCombiner.mk [bad_file]) (by decide)

/-- Claim C1, counterexample to the claim as stated: construction performs no
decoding at all.  `AudioCombiner::new` is total — it stores the clip list
verbatim and cannot fail, even for a clip whose decode fails — and the decode
error only surfaces when `combine` is called: the decoding work is deferred
to the mix request, contradicting "decodes ... eagerly at construction time"
and "no decoding work is deferred to the mix request". -/
theorem construction_defers_decoding_counterexample :
    AudioCombiner.new [bad_file] = { files := [bad_file] } ∧
    (AudioCombiner.new [bad_file]).combine fail_decode [] [100] =
      Except.error "malformed packet" :=
  ⟨rfl, rfl⟩

/-- Claim C1, amended: construction stores the clips verbatim and performs no
decoding (it is total and never fails); every clip is decoded anew on each
mix request, and `combine` fails fast on the first clip whose decode fails,
returning the decode error of that clip. -/
theorem construction_stores_mix_decodes (decode : DecodeOracle) (clock : List ℚ)
    (files pre rest : List SingleAudioFile) (bad : SingleAudioFile)
    (volumes : List Nat) (e : String)
    (hpre : ∀ g ∈ pre, ∃ t, decode g = Except.ok t)
    (hvol : pre.length < volumes.length)
    (hbad : decode bad = Except.error e) :
    AudioCombiner.new files = { files := files } ∧
    (AudioCombiner.new (pre ++ bad :: rest)).combine decode clock volumes =
      Except.error e := by
  refine ⟨rfl, ?_⟩
  have h := combine_loop_fail_fast decode volumes bad rest e hbad pre 0 [] hpre
    (by omega)
  simp only [AudioCombiner.combine, AudioCombiner.new, h]

/-- Witness for the amended C1 at a concrete bad clip. -/
theorem construction_stores_mix_decodes_witness :
    AudioCombiner.new [bad_file] = { files := [bad_file] } ∧
    (AudioCombiner.new ([] ++ bad_file :: [])).combine fail_decode [] [100] =
      Except.error "malformed packet" :=
  construction_stores_mix_decodes fail_decode [] [bad_file] [] [] bad_file [100]
    "malformed packet" (fun g hg => absurd hg (List.not_mem_nil g)) (by decide) rfl

/-- Claim C2, counterexample to the claim as stated: a successful `combine`
returns its WAV byte stream tagged `SingleAudioFileType.Ogg` — the very tag
that the hint mapping of the combiner itself treats as the compressed Ogg container
("ogg") — and the tag set `{Mpeg, Ogg}` contains no uncompressed (WAV)
variant at all, so the output tag does not identify the uncompressed
container variant. -/
theorem combine_output_tag_counterexample :
    (AudioCombiner.new []).combine ok_decode [] [] =
      Except.ok { bytes := create_wav_container [] 44100
                  type := SingleAudioFileType.Ogg } ∧
    hint_extension SingleAudioFileType.Ogg = "ogg" ∧
    hint_extension SingleAudioFileType.Mpeg = "mp3" :=
  ⟨rfl, rfl, rfl⟩

/-- Claim C2, amended: every successful `combine` call returns its output
with the fixed tag `Ogg`, regardless of the formats of the input clips (the tag
set has no uncompressed variant; the payload bytes are a WAV container but
the tag is the compressed-Ogg one). -/
theorem combine_output_type_ogg (self : AudioCombiner) (decode : DecodeOracle)
    (clock : List ℚ) (volumes : List Nat) (out : SingleAudioFile)
    (h : self.combine decode clock volumes = Except.ok out) :
    out.type = SingleAudioFileType.Ogg := by
  simp only [AudioCombiner.combine] at h
  cases hcl : combine_loop decode volumes self.files 0 [] with
  | error e =>
    rw [hcl] at h
    cases h
  | ok m =>
    rw [hcl] at h
    injection h with h2
    subst h2
    rfl

/-- Witness for the amended C2: the output of a concrete successful call has tag
`Ogg`. -/
theorem combine_output_type_ogg_witness :
    ({ bytes := create_wav_container [] 44100
       type := SingleAudioFileType.Ogg } : SingleAudioFile).type =
      SingleAudioFileType.Ogg :=
  combine_output_type_ogg (AudioCombiner.new []) ok_decode [] [] _ rfl

/-- Claim C3 (code bug): the code performs no channel normalization.  A mono
source of one decoded frame (oracle sample list `[1/2]`) is mixed as-is: the
master buffer keeps one sample and the WAV payload is 46 = 44 + 2·1 bytes,
whereas the claimed duplication into stereo would give a length-2 track and
a 48 = 44 + 2·2 byte output (third conjunct shows the length the claimed
behavior would produce). -/
theorem mono_track_not_duplicated :
    (AudioCombiner.new [mono_file]).combine mono_decode [] [100] =
      Except.ok { bytes := create_wav_container [1/2] 44100
                  type := SingleAudioFileType.Ogg } ∧
    (create_wav_container [1/2] 44100).length = 46 ∧
    (create_wav_container [(1 : ℚ)/2, 1/2] 44100).length = 48 := by
  have hmix : combine_loop mono_decode [100] [mono_file] 0 [] = Except.ok [1/2] := by
    simp [combine_loop, mono_decode, mix_loop]
  refine ⟨?_, ?_, ?_⟩
  · simp only [AudioCombiner.combine, AudioCombiner.new, hmix]
  · rw [create_wav_container_length]
    rfl
  · rw [create_wav_container_length]
    rfl

/-- Claim C6: (1) when every clip decodes, the master buffer produced by the
mixing loop has length equal to the running maximum of the decoded track
lengths, starting from 0 — i.e. the maximum over all tracks, and 0 when
there are no tracks; (2) for two tracks with `t1.length < t2.length`, at
every index at or beyond `t1.length` the master value is exactly the sample of track 2 scaled
by the gain of track 2 alone — shorter tracks behave as zero-padded. -/
theorem mixing_master_length_and_tail (decode : DecodeOracle) :
    (∀ (files : List SingleAudioFile) (volumes : List Nat) (ts : List (List ℚ)),
        decodedTracks decode files = Except.ok ts →
        files.length ≤ volumes.length →
        ∃ master, combine_loop decode volumes files 0 [] = Except.ok master ∧
          master.length = ts.foldl (fun acc t => max acc t.length) 0) ∧
    (∀ (f1 f2 : SingleAudioFile) (t1 t2 : List ℚ) (v1 v2 : Nat),
        decode f1 = Except.ok t1 → decode f2 = Except.ok t2 →
        t1.length < t2.length →
        ∃ master, combine_loop decode [v1, v2] [f1, f2] 0 [] = Except.ok master ∧
          master.length = t2.length ∧
          ∀ j, t1.length ≤ j →
            master.getD j 0 = t2.getD j 0 * ((v2 : ℚ) / 100)) := by
  constructor
  · intro files volumes ts hts hlen
    obtain ⟨m, hm, hl⟩ := combine_loop_length decode volumes files ts 0 [] hts
      (by omega)
    exact ⟨m, hm, by simpa using hl⟩
  · intro f1 f2 t1 t2 v1 v2 h1 h2 hlt
    have hv0 : ([v1, v2] : List Nat)[0]? = some v1 := rfl
    have hv1 : ([v1, v2] : List Nat)[1]? = some v2 := rfl
    refine ⟨mix_loop ((v2 : ℚ) / 100) (mix_loop ((v1 : ℚ) / 100) [] 0 t1) 0 t2,
      ?_, ?_, ?_⟩
    · simp only [combine_loop, hv0, h1, hv1, h2]
    · rw [mix_loop_length _ t2 _ 0 (Nat.zero_le _),
        mix_loop_length _ t1 [] 0 (Nat.zero_le _)]
      simp
      omega
    · intro j hj
      rw [mix_loop_getD _ t2 _ 0 (Nat.zero_le _) j,
        mix_loop_getD _ t1 [] 0 (Nat.zero_le _) j]
      have hz : ([] : List ℚ).getD j 0 = 0 := by
        simp [List.getD_eq_getElem?_getD]
      rw [if_pos (Nat.zero_le j), if_pos (Nat.zero_le j), Nat.sub_zero, hz,
        getD_eq_zero_of_le hj]
      ring

/-- Witness for C6 (tail part) at two concrete tracks of lengths 1 and 3. -/
theorem mixing_master_length_and_tail_witness :
    ∃ master,
      combine_loop two_track_decode [100, 100] [track_a_file, track_b_file] 0 [] =
        Except.ok master ∧
      master.length = ([1/4, 1/4, 1/4] : List ℚ).length ∧
      ∀ j, ([1/2] : List ℚ).length ≤ j →
        master.getD j 0 = ([1/4, 1/4, 1/4] : List ℚ).getD j 0 * ((100 : ℚ) / 100) :=
  (mixing_master_length_and_tail two_track_decode).2 track_a_file track_b_file
    [1/2] [1/4, 1/4, 1/4] 100 100 rfl rfl (by decide)

/-- Claim C7: the 16-bit value written by the WAV encoder for a float sample
`s` is exactly the truncation toward zero of `clamp(s, -1, 1) * 32767`; it
always lies in `[-32767, 32767]` (the saturating `as i16` cast never
saturates and the twos-complement byte encoding never wraps), and decoding
the two emitted little-endian bytes recovers it exactly. -/
theorem encode_sample_quantization (s : ℚ) :
    quantize_sample s = ratTrunc (max (-1) (min 1 s) * 32767) ∧
    -32767 ≤ quantize_sample s ∧ quantize_sample s ≤ 32767 ∧
    decode_int16le (encode_sample s) = quantize_sample s := by
  obtain ⟨heq, hb1, hb2⟩ := quantize_sample_eq s
  exact ⟨heq, hb1, hb2, int16le_roundtrip _ hb1 hb2⟩

/-- Simp-normal cons form of the WAV container at the fixed 44100 Hz output
rate, used to read header fields structurally. -/
theorem create_wav_container_chain (samples : List ℚ) :
    create_wav_container samples 44100 =
      82 :: 73 :: 70 :: 70 ::
      ((36 + samples.length * 2) % 256) :: ((36 + samples.length * 2) / 256 % 256) ::
      ((36 + samples.length * 2) / 65536 % 256) ::
      ((36 + samples.length * 2) / 16777216 % 256) ::
      87 :: 65 :: 86 :: 69 ::
      102 :: 109 :: 116 :: 32 ::
      16 :: 0 :: 0 :: 0 ::
      1 :: 0 ::
      2 :: 0 ::
      68 :: 172 :: 0 :: 0 ::
      16 :: 177 :: 2 :: 0 ::
      4 :: 0 ::
      16 :: 0 ::
      100 :: 97 :: 116 :: 97 ::
      (samples.length * 2 % 256) :: (samples.length * 2 / 256 % 256) ::
      (samples.length * 2 / 65536 % 256) :: (samples.length * 2 / 16777216 % 256) ::
      (samples.map encode_sample).flatten := by
  simp [create_wav_container, u32le, u16le]

theorem wav_field_riff (samples : List ℚ) :
    (create_wav_container samples 44100).take 4 = [82, 73, 70, 70] := by
  rw [create_wav_container_chain]
  rfl

theorem wav_field_chunk_size (samples : List ℚ)
    (h : 36 + samples.length * 2 < 4294967296) :
    read_u32le ((create_wav_container samples 44100).drop 4) =
      36 + samples.length * 2 := by
  rw [create_wav_container_chain]
  show (36 + samples.length * 2) % 256
      + 256 * ((36 + samples.length * 2) / 256 % 256)
      + 65536 * ((36 + samples.length * 2) / 65536 % 256)
      + 16777216 * ((36 + samples.length * 2) / 16777216 % 256)
    = 36 + samples.length * 2
  omega

theorem wav_field_wave (samples : List ℚ) :
    ((create_wav_container samples 44100).drop 8).take 4 = [87, 65, 86, 69] := by
  rw [create_wav_container_chain]
  rfl

theorem wav_field_fmt (samples : List ℚ) :
    ((create_wav_container samples 44100).drop 12).take 4 = [102, 109, 116, 32] := by
  rw [create_wav_container_chain]
  rfl

theorem wav_field_subchunk_size (samples : List ℚ) :
    read_u32le ((create_wav_container samples 44100).drop 16) = 16 := by
  rw [create_wav_container_chain]
  rfl

theorem wav_field_pcm_tag (samples : List ℚ) :
    read_u16le ((create_wav_container samples 44100).drop 20) = 1 := by
  rw [create_wav_container_chain]
  rfl

theorem wav_field_channels (samples : List ℚ) :
    read_u16le ((create_wav_container samples 44100).drop 22) = 2 := by
  rw [create_wav_container_chain]
  rfl

theorem wav_field_sample_rate (samples : List ℚ) :
    read_u32le ((create_wav_container samples 44100).drop 24) = 44100 := by
  rw [create_wav_container_chain]
  show (68 : Nat) + 256 * 172 + 65536 * 0 + 16777216 * 0 = 44100
  norm_num

theorem wav_field_byte_rate (samples : List ℚ) :
    read_u32le ((create_wav_container samples 44100).drop 28) = 44100 * 4 := by
  rw [create_wav_container_chain]
  show (16 : Nat) + 256 * 177 + 65536 * 2 + 16777216 * 0 = 44100 * 4
  norm_num

theorem wav_field_block_align (samples : List ℚ) :
    read_u16le ((create_wav_container samples 44100).drop 32) = 4 := by
  rw [create_wav_container_chain]
  rfl

theorem wav_field_bits_per_sample (samples : List ℚ) :
    read_u16le ((create_wav_container samples 44100).drop 34) = 16 := by
  rw [create_wav_container_chain]
  rfl

theorem wav_field_data_tag (samples : List ℚ) :
    ((create_wav_container samples 44100).drop 36).take 4 = [100, 97, 116, 97] := by
  rw [create_wav_container_chain]
  rfl

theorem wav_field_data_size (samples : List ℚ)
    (h : 36 + samples.length * 2 < 4294967296) :
    read_u32le ((create_wav_container samples 44100).drop 40) =
      samples.length * 2 := by
  rw [create_wav_container_chain]
  show samples.length * 2 % 256
      + 256 * (samples.length * 2 / 256 % 256)
      + 65536 * (samples.length * 2 / 65536 % 256)
      + 16777216 * (samples.length * 2 / 16777216 % 256)
    = samples.length * 2
  omega

theorem wav_field_data_bytes (samples : List ℚ) :
    (create_wav_container samples 44100).drop 44 =
      (samples.map encode_sample).flatten := by
  rw [create_wav_container_chain]
  rfl

/-- Claim C8: the output of the encoder is exactly 44 + 2·n bytes for n samples,
laid out per the fixed header table — "RIFF", chunk size 36 + dataSize,
"WAVE", "fmt ", subchunk size 16, PCM tag 1, 2 channels, sample rate 44100,
byte rate 44100 × 4, block align 4, 16 bits per sample, "data",
dataSize = 2·n, all little-endian — followed by the per-sample 16-bit data.
The hypothesis keeps the u32 fields below 2^32 so that the little-endian
reads recover the exact values; in particular the empty sequence yields a
44-byte header with dataSize 0 and chunk size 36 (see the witness). -/
theorem wav_header_layout (samples : List ℚ)
    (h : 36 + samples.length * 2 < 4294967296) :
    (create_wav_container samples 44100).length = 44 + 2 * samples.length ∧
    (create_wav_container samples 44100).take 4 = [82, 73, 70, 70] ∧
    read_u32le ((create_wav_container samples 44100).drop 4) =
      36 + samples.length * 2 ∧
    ((create_wav_container samples 44100).drop 8).take 4 = [87, 65, 86, 69] ∧
    ((create_wav_container samples 44100).drop 12).take 4 = [102, 109, 116, 32] ∧
    read_u32le ((create_wav_container samples 44100).drop 16) = 16 ∧
    read_u16le ((create_wav_container samples 44100).drop 20) = 1 ∧
    read_u16le ((create_wav_container samples 44100).drop 22) = 2 ∧
    read_u32le ((create_wav_container samples 44100).drop 24) = 44100 ∧
    read_u32le ((create_wav_container samples 44100).drop 28) = 44100 * 4 ∧
    read_u16le ((create_wav_container samples 44100).drop 32) = 4 ∧
    read_u16le ((create_wav_container samples 44100).drop 34) = 16 ∧
    ((create_wav_container samples 44100).drop 36).take 4 = [100, 97, 116, 97] ∧
    read_u32le ((create_wav_container samples 44100).drop 40) =
      samples.length * 2 ∧
    (create_wav_container samples 44100).drop 44 =
      (samples.map encode_sample).flatten :=
  ⟨create_wav_container_length samples 44100, wav_field_riff samples,
    wav_field_chunk_size samples h, wav_field_wave samples, wav_field_fmt samples,
    wav_field_subchunk_size samples, wav_field_pcm_tag samples,
    wav_field_channels samples, wav_field_sample_rate samples,
    wav_field_byte_rate samples, wav_field_block_align samples,
    wav_field_bits_per_sample samples, wav_field_data_tag samples,
    wav_field_data_size samples h, wav_field_data_bytes samples⟩

/-- Witness for C8 at the empty sample sequence: exactly a 44-byte header
with chunk size 36 and dataSize 0, per the empty-sequence case of the claim. -/
theorem wav_header_layout_witness :
    (create_wav_container ([] : List ℚ) 44100).length =
      44 + 2 * ([] : List ℚ).length ∧
    read_u32le ((create_wav_container ([] : List ℚ) 44100).drop 4) =
      36 + ([] : List ℚ).length * 2 ∧
    read_u32le ((create_wav_container ([] : List ℚ) 44100).drop 40) =
      ([] : List ℚ).length * 2 := by
  obtain ⟨h1, _, h3, _, _, _, _, _, _, _, _, _, _, h14, _⟩ :=
    wav_header_layout [] (by decide)
  exact ⟨h1, h3, h14⟩

end WasmAudioCombiner
